import Mathlib

/-!
Verification development for the DispatcherTim backend (src/backend/app.py).

The Python code is shallowly embedded: strings are lists of unicode
characters, the relational store is an explicit record of tables, each
HTTP handler becomes a pure function from the store (plus its inputs) to
an Except value carrying either an error (HTTP 4xx) or its result
together with the updated store.  Fallible handlers model the per-request
transaction: an error result means the transaction was rolled back, so
the store is unchanged.
-/

set_option maxRecDepth 20000

namespace DispatcherTim

/-- A Python str, modelled as the list of its unicode code points. -/
abbrev Str := List Char

/-- Shorthand for building a Str from a Lean string literal. -/
def S (s : String) : Str := s.toList

/-- Whitespace, per the default str.split of Python (ASCII part). -/
def isSpace (c : Char) : Bool :=
  c = ' ' || c = '\t' || c = '\n' || c = '\r' || c = '\x0b' || c = '\x0c'

/-- Python str.lower, restricted to the ASCII case mapping. -/
def lowerStr (s : Str) : Str := s.map Char.toLower

/-- Python comparison of characters: by code point. -/
def charLt (c d : Char) : Bool := decide (c.toNat < d.toNat)

/-- Python lexicographic comparison of strings (code-point order). -/
def strLt : Str → Str → Bool
  | [], [] => false
  | [], _ :: _ => true
  | _ :: _, [] => false
  | a :: as, b :: bs => if charLt a b then true else if charLt b a then false else strLt as bs

/-- Helper of words: accumulates the current word reversed. -/
def wordsGo (cur : Str) : Str → List Str
  | [] => if cur.isEmpty then [] else [cur.reverse]
  | c :: cs =>
      if isSpace c then
        if cur.isEmpty then wordsGo [] cs else cur.reverse :: wordsGo [] cs
      else wordsGo (c :: cur) cs

/-- Python s.split(): split on whitespace runs, dropping empty pieces. -/
def words (s : Str) : List Str := wordsGo [] s

/-- Python " ".join(ws). -/
def joinSp : List Str → Str
  | [] => []
  | [w] => w
  | w :: ws => w ++ ' ' :: joinSp ws

/-- app.py norm_city: " ".join(s.split()).strip().  After joining the
whitespace-free words there is nothing left to strip, so the join of the
words is the result. -/
def norm_city (s : Str) : Str := joinSp (words s)

/-- The error taxonomy of the HTTP handlers (HTTPException with status). -/
inductive Err where
  | validation : Str → Err
  | notFound : Str → Err
  | auth : Str → Err
  deriving DecidableEq, Repr

deriving instance DecidableEq for Except

/-- Path delimiters of parse_path: the regex class [-—→>]. -/
def isDelim (c : Char) : Bool := c = '-' || c = '—' || c = '→' || c = '>'

/-- Split on the delimiter characters.  The surrounding-whitespace part
of the regex of parse_path is absorbed by the norm_city applied to every
piece right after (norm_city trims, and a piece of pure whitespace
normalizes to the empty string, exactly as an empty regex piece). -/
def splitDelim : Str → List Str
  | [] => [[]]
  | c :: cs =>
      if isDelim c then [] :: splitDelim cs
      else
        match splitDelim cs with
        | h :: t => (c :: h) :: t
        | [] => [[c]]

/-- The adjacent-duplicate collapse loop of parse_path, after the head
element has been kept: prev is the element most recently appended. -/
def collapseAux (prev : Str) : List Str → List Str
  | [] => []
  | q :: rest =>
      if lowerStr q = lowerStr prev then collapseAux prev rest
      else q :: collapseAux q rest

/-- The out-accumulation loop of parse_path: keep an element unless it
equals (case-insensitively) the last kept one. -/
def collapse : List Str → List Str
  | [] => []
  | p :: rest => p :: collapseAux p rest

/-- Message of the too-short-path ValidationError. -/
def msgMin2 : Str := S "Минимум 2 точки (origin, destination)"

/-- app.py parse_path. -/
def parse_path (path : Str) : Except Err (List Str) :=
  let parts := ((splitDelim path).filter
      (fun p => !p.isEmpty && !(norm_city p).isEmpty)).map norm_city
  let out := collapse parts
  if out.length < 2 then .error (.validation msgMin2)
  else .ok out

/-! ## Data model: the relational store -/

/-- A route_groups row. -/
structure Group where
  id : Nat
  city_a : Str
  city_b : Str
  deriving DecidableEq, Repr

/-- The route_groups table together with its id sequence. -/
structure GroupTable where
  rows : List Group
  nextId : Nat
  deriving DecidableEq, Repr

/-- A route_variants row (is_active defaults to TRUE on insert). -/
structure Variant where
  id : Nat
  group_id : Nat
  title : Option Str
  is_active : Bool
  deriving DecidableEq, Repr

/-- A route_variant_stops row. -/
structure VStop where
  variant_id : Nat
  seq : Nat
  city : Str
  deriving DecidableEq, Repr

/-- A route_variant_segments row; its four fields are exactly the
columns of the unique constraint used by ON CONFLICT. -/
structure Segment where
  group_id : Nat
  parent_variant_id : Nat
  start_seq : Nat
  end_seq : Nat
  deriving DecidableEq, Repr

/-- A carrier_group_links row. -/
structure CGLink where
  id : Nat
  carrier_id : Nat
  group_id : Nat
  default_variant_id : Option Nat
  deriving DecidableEq, Repr

/-- A carriers row (vehicle fields omitted: no claim reads them). -/
structure Carrier where
  id : Nat
  name : Str
  phone : Option Str
  deriving DecidableEq, Repr

/-- The relational store. -/
structure DB where
  groupTable : GroupTable
  variants : List Variant
  nextVariantId : Nat
  stops : List VStop
  segments : List Segment
  links : List CGLink
  carriers : List Carrier
  deriving DecidableEq, Repr

/-! ## Route group registry -/

/-- The pair ordering of app.py ensure_group: normalize both names and
order them by case-insensitive lexicographic comparison.
ensure_group then performs a get-or-create of the row.
The INSERT .. ON CONFLICT DO NOTHING / SELECT sequence of the code is a
get-or-create keyed on the exact (city_a, city_b) pair, which over a
table satisfying the unique constraint is: return the matching row if
present, otherwise insert a fresh one. -/
def canonPair (a b : Str) : Str × Str :=
  let a := norm_city a
  let b := norm_city b
  if strLt (lowerStr a) (lowerStr b) then (a, b) else (b, a)

/-- The get-or-create of ensure_group on the canonical pair. -/
def ensure_group (gt : GroupTable) (a b : Str) : Nat × GroupTable :=
  let p := canonPair a b
  match gt.rows.find? (fun g => g.city_a == p.1 && g.city_b == p.2) with
  | some g => (g.id, gt)
  | none =>
      (gt.nextId, { rows := gt.rows ++ [{ id := gt.nextId, city_a := p.1, city_b := p.2 }],
                    nextId := gt.nextId + 1 })

/-! ## Route variant store -/

/-- Message of the boundary ValidationError of validate_variant_belongs. -/
def belongsMsg (a b : Str) : Str :=
  S "Путь должен начинаться/заканчиваться в границах группы (" ++ a ++ S "—" ++ b ++ S ")"

/-- app.py validate_variant_belongs, as a Bool condition: the first and
last stops must match the two group cities in either direction. -/
def variantBelongs (a b : Str) (stops : List Str) : Bool :=
  let s0 := norm_city (stops.headD [])
  let sN := norm_city (stops.getLastD [])
  (lowerStr s0 == lowerStr a && lowerStr sN == lowerStr b) ||
  (lowerStr s0 == lowerStr b && lowerStr sN == lowerStr a)

/-- The seq-assignment loop shared by create_variant and
replace_variant_stops: seq starts at 0, the last stop gets 9999, and
seq is bumped by 100 after each stop whose index is below n-2. -/
def seqLoop (n : Nat) : Nat → Nat → List Str → List (Nat × Str)
  | _, _, [] => []
  | i, seq, c :: rest =>
      let s := if i = n - 1 then 9999 else seq
      (s, c) :: seqLoop n (i + 1) (if i < n - 2 then s + 100 else s) rest

/-- Seq assignment for a full stop list. -/
def assign_seqs (stops : List Str) : List (Nat × Str) := seqLoop stops.length 0 0 stops

/-- app.py create_variant (POST /route-groups/{id}/variants): load the
group, parse the path, validate the boundary, reverse to the canonical
direction when needed, insert the variant row and its stops (each city
normalized again on insert). -/
def create_variant (db : DB) (group_id : Nat) (title : Option Str) (path : Str) :
    Except Err (Nat × DB) :=
  match db.groupTable.rows.find? (fun g => g.id == group_id) with
  | none => .error (.notFound (S "Group not found"))
  | some g =>
      match parse_path path with
      | .error e => .error e
      | .ok stops =>
          if !variantBelongs g.city_a g.city_b stops then
            .error (.validation (belongsMsg g.city_a g.city_b))
          else
            let stops :=
              if !(lowerStr (stops.headD []) == lowerStr g.city_a &&
                   lowerStr (stops.getLastD []) == lowerStr g.city_b)
              then stops.reverse else stops
            let vid := db.nextVariantId
            let rows := (assign_seqs (stops.map norm_city)).map
              (fun p => (⟨vid, p.1, p.2⟩ : VStop))
            .ok (vid, { db with
              variants := db.variants ++ [{ id := vid, group_id := group_id,
                                            title := title, is_active := true }],
              nextVariantId := vid + 1,
              stops := db.stops ++ rows })

/-- The stop list of replace_variant_stops after the comprehension
[norm_city(x) for x in payload.stops if x and norm_city(x)]. -/
def replStops (payload : List Str) : List Str :=
  (payload.filter (fun x => !x.isEmpty && !(norm_city x).isEmpty)).map norm_city

/-- Message of the boundary ValidationError of replace_variant_stops. -/
def boundaryMsg (a b : Str) : Str := S "Границы должны быть " ++ a ++ S "—" ++ b

/-- DELETE FROM route_variant_stops WHERE variant_id=.. then reinsert
with the shared seq-assignment loop. -/
def writeStops (db : DB) (variant_id : Nat) (stops : List Str) : DB :=
  { db with stops := db.stops.filter (fun s => !(s.variant_id == variant_id)) ++
      (assign_seqs stops).map (fun p => (⟨variant_id, p.1, p.2⟩ : VStop)) }

/-- app.py replace_variant_stops (PUT /route-variants/{id}/stops): load
the variant joined with its group, filter and normalize the payload,
check the boundary in either direction (reversing to canonical), then
delete all stops of the variant and insert the new list. -/
def replace_variant_stops (db : DB) (variant_id : Nat) (payload : List Str) :
    Except Err DB :=
  match db.variants.find? (fun v => v.id == variant_id) with
  | none => .error (.notFound (S "Variant not found"))
  | some v =>
      match db.groupTable.rows.find? (fun g => g.id == v.group_id) with
      | none => .error (.notFound (S "Variant not found"))
      | some g =>
          let stops := replStops payload
          if stops.length < 2 then .error (.validation (S "Минимум 2 точки"))
          else
            if lowerStr (stops.headD []) == lowerStr g.city_a &&
               lowerStr (stops.getLastD []) == lowerStr g.city_b then
              .ok (writeStops db variant_id stops)
            else if lowerStr (stops.headD []) == lowerStr g.city_b &&
                    lowerStr (stops.getLastD []) == lowerStr g.city_a then
              .ok (writeStops db variant_id stops.reverse)
            else .error (.validation (boundaryMsg g.city_a g.city_b))

/-- Commit-or-rollback view of a fallible store update: an error rolls
the transaction back, leaving the store unchanged. -/
def committed (r : Except Err DB) (db : DB) : DB :=
  match r with
  | .ok db2 => db2
  | .error _ => db

/-- Insertion into a list sorted by seq. -/
def insertBySeq (x : VStop) : List VStop → List VStop
  | [] => [x]
  | y :: ys => if y.seq ≤ x.seq then y :: insertBySeq x ys else x :: y :: ys

/-- ORDER BY seq over the rows of one variant. -/
def sortBySeq (l : List VStop) : List VStop := l.foldr insertBySeq []

/-- SELECT city, seq FROM route_variant_stops WHERE variant_id=.. ORDER BY seq,
as (seq, city) pairs. -/
def variant_stops (db : DB) (vid : Nat) : List (Nat × Str) :=
  (sortBySeq (db.stops.filter (fun s => s.variant_id == vid))).map (fun s => (s.seq, s.city))

/-- Insertion into a list sorted by variant id. -/
def insertById (x : Variant) : List Variant → List Variant
  | [] => [x]
  | y :: ys => if y.id ≤ x.id then y :: insertById x ys else x :: y :: ys

/-- app.py get_group (GET /route-groups/{id}): the group, its active
variants (ORDER BY id) each with stops (ORDER BY seq), and the carrier
links joined with carriers. -/
def get_group (db : DB) (group_id : Nat) :
    Except Err (Group × List (Variant × List (Nat × Str)) ×
                List (Nat × Nat × Str × Option Str × Option Nat)) :=
  match db.groupTable.rows.find? (fun g => g.id == group_id) with
  | none => .error (.notFound (S "Group not found"))
  | some g =>
      let vs := (db.variants.filter (fun v => v.group_id == group_id && v.is_active)).foldr
        insertById []
      let vrows := vs.map (fun v => (v, variant_stops db v.id))
      let lrows := (db.links.filter (fun l => l.group_id == group_id)).flatMap
        (fun l => (db.carriers.filter (fun c => c.id == l.carrier_id)).map
          (fun c => (l.id, c.id, c.name, c.phone, l.default_variant_id)))
      .ok (g, vrows, lrows)

/-! ## Segment derivation engine -/

/-- The rows of one variant, ORDER BY seq. -/
def variantStops (db : DB) (vid : Nat) : List VStop :=
  sortBySeq (db.stops.filter (fun s => s.variant_id == vid))

/-- Lookup in the dict {s.city.lower(): s.seq for s in stops} built by
auto_derive_segment: later stops overwrite earlier ones, so the value of
a key is the seq of its last occurrence in the ORDER BY seq row list. -/
def seqOf (stops : List VStop) (key : Str) : Option Nat :=
  (stops.reverse.find? (fun s => lowerStr s.city == key)).map (fun s => s.seq)

/-- ON CONFLICT DO NOTHING insert into route_variant_segments. -/
def insertSeg (segs : List Segment) (t : Segment) : List Segment :=
  if t ∈ segs then segs else segs ++ [t]

/-- Message of the no-parent-found NotFound error. -/
def msgNoParent : Str := S "Подходящий родительский вариант не найден"

/-- The scan loop of auto_derive_segment over the active variants (the
SQL join with route_groups drops a variant whose group row is missing).
o and d are already normalized. -/
def adGo (db : DB) (o d : Str) : List Variant → Except Err ((Nat × Nat × List Str) × DB)
  | [] => .error (.notFound msgNoParent)
  | v :: rest =>
      if v.is_active && db.groupTable.rows.any (fun g => g.id == v.group_id) then
        let stops := variantStops db v.id
        match seqOf stops (lowerStr o), seqOf stops (lowerStr d) with
        | some so, some sd =>
            let path :=
              if so < sd then
                (stops.filter (fun s => decide (so ≤ s.seq) && decide (s.seq ≤ sd))).map
                  (fun s => s.city)
              else
                (stops.reverse.filter (fun s => decide (sd ≤ s.seq) && decide (s.seq ≤ so))).map
                  (fun s => s.city)
            let eg := ensure_group db.groupTable o d
            let seg : Segment :=
              if so < sd then ⟨eg.1, v.id, so, sd⟩ else ⟨eg.1, v.id, sd, so⟩
            .ok ((eg.1, v.id, path),
                 { db with groupTable := eg.2, segments := insertSeg db.segments seg })
        | _, _ => adGo db o d rest
      else adGo db o d rest

/-- app.py auto_derive_segment (POST /route-groups/auto-derive). -/
def auto_derive_segment (db : DB) (origin destination : Str) :
    Except Err ((Nat × Nat × List Str) × DB) :=
  adGo db (norm_city origin) (norm_city destination) db.variants

/-- The response of auto_derive_segment, when it succeeds. -/
def adOut (db : DB) (origin destination : Str) : Option (Nat × Nat × List Str) :=
  match auto_derive_segment db origin destination with
  | .ok (out, _) => some out
  | .error _ => none

/-- The store after an auto_derive_segment request (commit or rollback). -/
def adDB (db : DB) (origin destination : Str) : DB :=
  match auto_derive_segment db origin destination with
  | .ok (_, db2) => db2
  | .error _ => db

/-- The sub-path slice as the spec words it (section 4.4 step 4): if the
seq of the origin is smaller, walk the stops in ascending seq keeping
those within the closed interval from seq(origin) to seq(destination);
otherwise walk in descending seq keeping those within the interval the
other way around. -/
def sliceSpec (stops : List VStop) (so sd : Nat) : List Str :=
  if so < sd then
    (stops.filter (fun s => decide (so ≤ s.seq) && decide (s.seq ≤ sd))).map (fun s => s.city)
  else
    (stops.reverse.filter (fun s => decide (sd ≤ s.seq) && decide (s.seq ≤ so))).map
      (fun s => s.city)

/-! ## Carrier matcher -/

/-- The seg CTE of search_carriers: all pairs of stops of one variant
where the stop matching origin has strictly smaller seq than the stop
matching destination (both case-insensitive), joined with the variant
row; yields (variant_id, group_id, start_seq, end_seq). -/
def segRows (db : DB) (origin destination : Str) : List (Nat × Nat × Nat × Nat) :=
  db.stops.flatMap (fun so =>
    db.stops.flatMap (fun sd =>
      db.variants.filterMap (fun rv =>
        if sd.variant_id == so.variant_id && decide (so.seq < sd.seq) &&
           lowerStr so.city == lowerStr origin && lowerStr sd.city == lowerStr destination &&
           rv.id == so.variant_id
        then some (rv.id, rv.group_id, so.seq, sd.seq) else none)))

/-- The correlated sub-query of search_carriers: the cities of the stops
of the variant between start_seq and end_seq inclusive, ordered by seq. -/
def pathBetween (db : DB) (vid s e : Nat) : List Str :=
  ((sortBySeq (db.stops.filter (fun st => st.variant_id == vid))).filter
      (fun st => decide (s ≤ st.seq) && decide (st.seq ≤ e))).map (fun st => st.city)

/-- app.py search_carriers (GET /carriers/search): join the qualifying
segments to the carrier links of the group (keeping a link whose default
variant is null or equal to this variant) and to carriers, and return
the DISTINCT rows (carrier_id, name, phone, path). -/
def search_carriers (db : DB) (origin destination : Str) :
    List (Nat × Str × Option Str × List Str) :=
  (segRows db origin destination |>.flatMap (fun seg =>
    db.links.flatMap (fun l =>
      db.carriers.filterMap (fun c =>
        if l.group_id == seg.2.1 && c.id == l.carrier_id &&
           (l.default_variant_id == none || l.default_variant_id == some seg.1)
        then some (c.id, c.name, c.phone, pathBetween db seg.1 seg.2.2.1 seg.2.2.2)
        else none)))).dedup

/-! ## Auth tokens

Python byte strings are lists of Nat below 256.  A Python str value that
is encoded/decoded (username, timestamp) is modelled by its UTF-8 byte
list directly, so .encode()/.decode() are identities of the model.
hashlib/hmac are embedded as an executable SHA-256 (FIPS 180-4) and the
standard HMAC construction. -/

/-- A Python bytes value. -/
abbrev Bytes := List Nat

/-- Truncation to a 32-bit word. -/
def w32 (x : Nat) : Nat := x % 4294967296

/-- Logical right shift of a 32-bit word. -/
def shr (n x : Nat) : Nat := x / 2 ^ n

/-- Right rotation of a 32-bit word. -/
def rotr (n x : Nat) : Nat := x / 2 ^ n + x % 2 ^ n * 2 ^ (32 - n)

/-- Bitwise complement of a 32-bit word. -/
def bnot32 (x : Nat) : Nat := 4294967295 - x

/-- SHA-256 big sigma 0. -/
def bsig0 (x : Nat) : Nat := rotr 2 x ^^^ rotr 13 x ^^^ rotr 22 x

/-- SHA-256 big sigma 1. -/
def bsig1 (x : Nat) : Nat := rotr 6 x ^^^ rotr 11 x ^^^ rotr 25 x

/-- SHA-256 small sigma 0. -/
def ssig0 (x : Nat) : Nat := rotr 7 x ^^^ rotr 18 x ^^^ shr 3 x

/-- SHA-256 small sigma 1. -/
def ssig1 (x : Nat) : Nat := rotr 17 x ^^^ rotr 19 x ^^^ shr 10 x

/-- SHA-256 choice function. -/
def chF (e f g : Nat) : Nat := (e &&& f) ^^^ (bnot32 e &&& g)

/-- SHA-256 majority function. -/
def majF (a b c : Nat) : Nat := (a &&& b) ^^^ (a &&& c) ^^^ (b &&& c)

/-- The SHA-256 round constants. -/
def Kc : List Nat :=
  [1116352408, 1899447441, 3049323471, 3921009573, 961987163, 1508970993,
   2453635748, 2870763221, 3624381080, 310598401, 607225278, 1426881987,
   1925078388, 2162078206, 2614888103, 3248222580, 3835390401, 4022224774,
   264347078, 604807628, 770255983, 1249150122, 1555081692, 1996064986,
   2554220882, 2821834349, 2952996808, 3210313671, 3336571891, 3584528711,
   113926993, 338241895, 666307205, 773529912, 1294757372, 1396182291,
   1695183700, 1986661051, 2177026350, 2456956037, 2730485921, 2820302411,
   3259730800, 3345764771, 3516065817, 3600352804, 4094571909, 275423344,
   430227734, 506948616, 659060556, 883997877, 958139571, 1322822218,
   1537002063, 1747873779, 1955562222, 2024104815, 2227730452, 2361852424,
   2428436474, 2756734187, 3204031479, 3329325298]

/-- The SHA-256 initial hash value. -/
def H0 : List Nat :=
  [1779033703, 3144134277, 1013904242, 2773480762,
   1359893119, 2600822924, 528734635, 1541459225]

/-- Message-schedule extension: append one word k times. -/
def schedExt : Nat → List Nat → List Nat
  | 0, w => w
  | k + 1, w =>
      let n := w.length
      schedExt k (w ++ [w32 (ssig1 (w.getD (n - 2) 0) + w.getD (n - 7) 0 +
                             ssig0 (w.getD (n - 15) 0) + w.getD (n - 16) 0)])

/-- The 64-word message schedule of one block. -/
def schedule (w : List Nat) : List Nat := schedExt 48 w

/-- One SHA-256 compression round; the state is the word list a..h. -/
def stepC (st : List Nat) (kw : Nat × Nat) : List Nat :=
  let a := st.getD 0 0
  let b := st.getD 1 0
  let c := st.getD 2 0
  let d := st.getD 3 0
  let e := st.getD 4 0
  let f := st.getD 5 0
  let g := st.getD 6 0
  let h := st.getD 7 0
  let t1 := w32 (h + bsig1 e + chF e f g + kw.1 + kw.2)
  let t2 := w32 (bsig0 a + majF a b c)
  [w32 (t1 + t2), a, b, c, w32 (d + t1), e, f, g]

/-- SHA-256 compression of one 16-word block. -/
def compress (h : List Nat) (blk : List Nat) : List Nat :=
  let st := (Kc.zip (schedule blk)).foldl stepC h
  (h.zip st).map (fun p => w32 (p.1 + p.2))

/-- Big-endian bytes of a 32-bit word. -/
def be32 (w : Nat) : Bytes := [w / 16777216 % 256, w / 65536 % 256, w / 256 % 256, w % 256]

/-- Big-endian bytes of a 64-bit length. -/
def be64 (n : Nat) : Bytes :=
  [n / 2 ^ 56 % 256, n / 2 ^ 48 % 256, n / 2 ^ 40 % 256, n / 2 ^ 32 % 256,
   n / 2 ^ 24 % 256, n / 2 ^ 16 % 256, n / 2 ^ 8 % 256, n % 256]

/-- SHA-256 padding: 0x80, zeros to 56 mod 64, 64-bit bit length. -/
def padMsg (m : Bytes) : Bytes :=
  m ++ [128] ++ List.replicate ((119 - m.length % 64) % 64) 0 ++ be64 (8 * m.length)

/-- Big-endian 32-bit words of a byte list. -/
def toWords : Bytes → List Nat
  | b0 :: b1 :: b2 :: b3 :: rest =>
      (b0 * 16777216 + b1 * 65536 + b2 * 256 + b3) :: toWords rest
  | _ => []

/-- Split a word list into 16-word blocks. -/
def chunk16 (acc : List Nat) : List Nat → List (List Nat)
  | [] => if acc.isEmpty then [] else [acc]
  | x :: xs =>
      if acc.length == 15 then (acc ++ [x]) :: chunk16 [] xs
      else chunk16 (acc ++ [x]) xs

/-- hashlib.sha256(..).digest(). -/
def sha256 (m : Bytes) : Bytes :=
  ((chunk16 [] (toWords (padMsg m))).foldl compress H0).flatMap be32

/-- hmac.new(key, msg, hashlib.sha256).digest(). -/
def hmac_sha256 (key msg : Bytes) : Bytes :=
  let k := if 64 < key.length then sha256 key else key
  let k0 := k ++ List.replicate (64 - k.length) 0
  sha256 (k0.map (fun b => b ^^^ 92) ++ sha256 (k0.map (fun b => b ^^^ 54) ++ msg))

/-- str(int(ts)): decimal ASCII bytes of a natural number. -/
def decBytesGo : Nat → Nat → Bytes
  | 0, _ => []
  | fuel + 1, m => if m < 10 then [48 + m] else decBytesGo fuel (m / 10) ++ [48 + m % 10]

/-- Decimal ASCII bytes of a natural number. -/
def decBytes (n : Nat) : Bytes := decBytesGo (n + 1) n

/-- The urlsafe base64 alphabet. -/
def b64alphabet : Str := S "ABCDEFGHIJKLMNOPQRSTUVWXYZabcdefghijklmnopqrstuvwxyz0123456789-_"

/-- Character of a sextet. -/
def sextetChar (n : Nat) : Char := b64alphabet.getD n 'A'

/-- Sextet of a character, if it is in the alphabet. -/
def charSextet (c : Char) : Option Nat := b64alphabet.findIdx? (fun x => x == c)

/-- base64.urlsafe_b64encode on bytes, producing the token text. -/
def b64encode : Bytes → Str
  | a :: b :: c :: rest =>
      sextetChar (a / 4) :: sextetChar (a % 4 * 16 + b / 16) ::
      sextetChar (b % 16 * 4 + c / 64) :: sextetChar (c % 64) :: b64encode rest
  | [a, b] => [sextetChar (a / 4), sextetChar (a % 4 * 16 + b / 16), sextetChar (b % 16 * 4), '=']
  | [a] => [sextetChar (a / 4), sextetChar (a % 4 * 16), '=', '=']
  | [] => []

/-- base64.urlsafe_b64decode, modelled strictly: a properly padded
string of alphabet characters decodes, anything else fails (the
handler catches any decode exception as an invalid token). -/
def b64decode : Str → Option Bytes
  | [] => some []
  | c1 :: c2 :: c3 :: c4 :: rest =>
      match charSextet c1, charSextet c2 with
      | some x, some y =>
          if c3 = '=' then
            if c4 = '=' && rest.isEmpty then some [x * 4 + y / 16] else none
          else
            match charSextet c3 with
            | some z =>
                if c4 = '=' then
                  if rest.isEmpty then some [x * 4 + y / 16, y % 16 * 16 + z / 4] else none
                else
                  match charSextet c4 with
                  | some w =>
                      (b64decode rest).map
                        (fun bs => (x * 4 + y / 16) :: (y % 16 * 16 + z / 4) ::
                                   (z % 4 * 64 + w) :: bs)
                  | none => none
            | none => none
      | _, _ => none
  | _ => none

/-- bytes.split(b".") of Python: split on every 0x2E byte. -/
def bsplit : Bytes → List Bytes
  | [] => [[]]
  | x :: xs =>
      if x == 46 then [] :: bsplit xs
      else
        match bsplit xs with
        | h :: t => (x :: h) :: t
        | [] => [[x]]

/-- app.py issue_token: base64url of username . timestamp . HMAC-SHA256
of "username:timestamp" under the server secret. -/
def issue_token (secret username : Bytes) (ts : Nat) : Str :=
  b64encode (username ++ [46] ++ decBytes ts ++ [46] ++
             hmac_sha256 secret (username ++ [58] ++ decBytes ts))

/-- app.py require_token: decode, split on dots, recompute the mac over
parts 0 and 1, compare with part 2, and return the username.  No clock
is consulted: the carried timestamp is never checked for expiry, which
is visible here in the absence of any time input. -/
def require_token (secret : Bytes) (token : Str) : Except Err Bytes :=
  if token.isEmpty then .error (.auth (S "No token"))
  else
    match b64decode token with
    | none => .error (.auth (S "Invalid token"))
    | some raw =>
        let parts := bsplit raw
        if parts.length < 3 then .error (.auth (S "Invalid token"))
        else
          let username := parts.getD 0 []
          let mac := parts.getD 2 []
          let calcMac := hmac_sha256 secret (username ++ [58] ++ parts.getD 1 [])
          if mac == calcMac then .ok username else .error (.auth (S "Invalid token"))

/-! ## Concrete stores used by examples, witnesses and counterexamples -/

/-- Bytes of an ASCII string literal. -/
def B (s : String) : Bytes := s.toList.map Char.toNat

/-- An empty store. -/
def emptyDB : DB :=
  { groupTable := { rows := [], nextId := 0 }, variants := [], nextVariantId := 0,
    stops := [], segments := [], links := [], carriers := [] }

/-- Group get-or-create for the pair (A, D) over an empty registry. -/
def exG : Nat × GroupTable := ensure_group { rows := [], nextId := 0 } (S "A") (S "D")

/-- Store holding just the group (A, D). -/
def exDB0 : DB := { emptyDB with groupTable := exG.2 }

/-- Store after creating the variant A - B - C - D in the group (A, D),
which stores stops A(0) B(100) C(200) D(9999). -/
def exDB : DB :=
  match create_variant exDB0 exG.1 none (S "A - B - C - D") with
  | .ok r => r.2
  | .error _ => exDB0

/-- Store with a group (B, D), one active variant B(0) C(100) D(9999)
and one carrier linked to the group with no default variant. -/
def c7db : DB :=
  { groupTable := { rows := [{ id := 0, city_a := S "B", city_b := S "D" }], nextId := 1 },
    variants := [{ id := 0, group_id := 0, title := none, is_active := true }],
    nextVariantId := 1,
    stops := [⟨0, 0, S "B"⟩, ⟨0, 100, S "C"⟩, ⟨0, 9999, S "D"⟩],
    segments := [], links := [⟨0, 1, 0, none⟩],
    carriers := [{ id := 1, name := S "N", phone := some (S "P") }] }

/-- Store with a group (A, C) and one active variant A(0) C(9999). -/
def c3db : DB :=
  { groupTable := { rows := [{ id := 0, city_a := S "A", city_b := S "C" }], nextId := 1 },
    variants := [{ id := 0, group_id := 0, title := none, is_active := true }],
    nextVariantId := 1,
    stops := [⟨0, 0, S "A"⟩, ⟨0, 9999, S "C"⟩],
    segments := [], links := [], carriers := [] }

/-- A path text of 102 alternating stops A - B - A - ... - B. -/
def bigPath : Str :=
  List.intercalate (S " - ") ((List.range 102).map (fun i => if i % 2 = 0 then S "A" else S "B"))

/-- Store with a group (A, B) and one active variant A(0) B(9999). -/
def bigDB : DB :=
  { groupTable := { rows := [{ id := 0, city_a := S "A", city_b := S "B" }], nextId := 1 },
    variants := [{ id := 0, group_id := 0, title := none, is_active := true }],
    nextVariantId := 1,
    stops := [⟨0, 0, S "A"⟩, ⟨0, 9999, S "B"⟩],
    segments := [], links := [], carriers := [] }

/-- The canonical seq pattern of a variant of n stops (n at least 2):
0, 100, ..., 100*(n-2), then the sentinel 9999. -/
def canonSeqs (n : Nat) : List Nat := (List.range (n - 1)).map (fun i => 100 * i) ++ [9999]

/-- Strict increase along a list. -/
def strictInc : List Nat → Bool
  | a :: b :: t => decide (a < b) && strictInc (b :: t)
  | _ => true

/-- No two adjacent entries equal case-insensitively. -/
def adjOkLower : List Str → Bool
  | a :: b :: t => decide (lowerStr a ≠ lowerStr b) && adjOkLower (b :: t)
  | _ => true

/-- The stop-list invariants claimed in the spec, over the (seq, city)
rows of one variant read in seq order: at least 2 stops, strictly
increasing seq, first seq 0, last seq 9999, intermediate increments of
100 (the canonical seq pattern), and no two consecutive stops with the
same case-insensitive city. -/
def goodStops (l : List (Nat × Str)) : Bool :=
  decide (2 ≤ l.length) &&
  decide (l.map Prod.fst = canonSeqs l.length) &&
  strictInc (l.map Prod.fst) &&
  (l.head?.map Prod.fst == some 0) &&
  (l.getLast?.map Prod.fst == some 9999) &&
  adjOkLower (l.map Prod.snd)

/-- Group get-or-create for the pair (A, C) over an empty registry. -/
def c5gt : Nat × GroupTable := ensure_group { rows := [], nextId := 0 } (S "A") (S "C")

/-- The creation of a variant from the path A - B - C in that group. -/
def c5res : Except Err (Nat × DB) :=
  create_variant { emptyDB with groupTable := c5gt.2 } c5gt.1 none (S "A - B - C")

/-- The store after creating the variant A - B - C in the (A, C) group
of c3db. -/
def c3dbCreate : DB :=
  match create_variant c3db 0 none (S "A - B - C") with
  | .ok r => r.2
  | .error _ => c3db


/-! ## Facts about the code-point string order -/

theorem charLt_irrefl (c : Char) : charLt c c = false := by
  simp [charLt]

theorem charLt_asymm {a b : Char} (h : charLt a b = true) : charLt b a = false := by
  simp only [charLt, decide_eq_true_eq, decide_eq_false_iff_not] at *
  omega

theorem char_toNat_inj {a b : Char} (h : a.toNat = b.toNat) : a = b := by
  have h2 := congrArg Char.ofNat h
  simpa [Char.ofNat_toNat] using h2

theorem strLt_irrefl (s : Str) : strLt s s = false := by
  induction s with
  | nil => rfl
  | cons c cs ih => simp [strLt, charLt_irrefl, ih]

theorem strLt_asymm : ∀ {x y : Str}, strLt x y = true → strLt y x = false
  | [], [], h => by simp [strLt] at h
  | [], _ :: _, _ => rfl
  | _ :: _, [], h => by simp [strLt] at h
  | a :: as, b :: bs, h => by
      simp only [strLt] at h ⊢
      by_cases hab : charLt a b = true
      · simp [hab, charLt_asymm hab]
      · simp only [hab, if_false] at h
        by_cases hba : charLt b a = true
        · simp [hba] at h
        · simp only [hba, if_false] at h
          simp [hab, hba, strLt_asymm h]

theorem strLt_total : ∀ {x y : Str}, x ≠ y → strLt x y = true ∨ strLt y x = true
  | [], [], h => absurd rfl h
  | [], _ :: _, _ => Or.inl rfl
  | _ :: _, [], _ => Or.inr rfl
  | a :: as, b :: bs, h => by
      by_cases hab : charLt a b = true
      · exact Or.inl (by simp [strLt, hab])
      · by_cases hba : charLt b a = true
        · exact Or.inr (by simp [strLt, hba])
        · have hc : a = b := by
            apply char_toNat_inj
            simp only [charLt, decide_eq_true_eq] at hab hba
            omega
          subst hc
          have ht : as ≠ bs := fun hh => h (by rw [hh])
          rcases strLt_total ht with h1 | h1
          · exact Or.inl (by simp [strLt, charLt_irrefl, h1])
          · exact Or.inr (by simp [strLt, charLt_irrefl, h1])

/-! ## Facts about ensure_group -/

theorem canonPair_symm (a b : Str)
    (h : lowerStr (norm_city a) ≠ lowerStr (norm_city b) ∨ norm_city a = norm_city b) :
    canonPair a b = canonPair b a := by
  rcases h with h | h
  · unfold canonPair
    by_cases hlt : strLt (lowerStr (norm_city a)) (lowerStr (norm_city b)) = true
    · simp [hlt, strLt_asymm hlt]
    · rcases strLt_total h with h1 | h1
      · exact absurd h1 hlt
      · simp [hlt, h1, strLt_asymm h1]
  · unfold canonPair
    rw [h]

theorem ensure_group_symm (gt : GroupTable) (a b : Str)
    (h : lowerStr (norm_city a) ≠ lowerStr (norm_city b) ∨ norm_city a = norm_city b) :
    ensure_group gt a b = ensure_group gt b a := by
  unfold ensure_group
  rw [canonPair_symm a b h]

theorem ensure_group_idem (gt : GroupTable) (a b : Str) :
    ensure_group (ensure_group gt a b).2 a b = ensure_group gt a b := by
  unfold ensure_group
  cases hfind : gt.rows.find? (fun g => g.city_a == (canonPair a b).1 &&
      g.city_b == (canonPair a b).2) with
  | some g => simp [hfind]
  | none =>
      simp only [hfind]
      rw [List.find?_append, hfind]
      simp

/-- After ensure_group, the canonical pair is present in the table and
the returned id belongs to a row carrying it. -/
theorem ensure_group_mem (gt : GroupTable) (a b : Str) :
    ∃ g ∈ (ensure_group gt a b).2.rows,
      g.id = (ensure_group gt a b).1 ∧
      g.city_a = (canonPair a b).1 ∧ g.city_b = (canonPair a b).2 := by
  unfold ensure_group
  cases hfind : gt.rows.find? (fun g => g.city_a == (canonPair a b).1 &&
      g.city_b == (canonPair a b).2) with
  | some g =>
      have hp := List.find?_some hfind
      simp only [Bool.and_eq_true, beq_iff_eq] at hp
      simp only [hfind]
      exact ⟨g, List.mem_of_find?_eq_some hfind, rfl, hp.1, hp.2⟩
  | none =>
      simp only [hfind]
      refine ⟨⟨gt.nextId, (canonPair a b).1, (canonPair a b).2⟩, ?_, rfl, rfl, rfl⟩
      simp

theorem canonPair_self (c : Str) : canonPair c c = (norm_city c, norm_city c) := by
  unfold canonPair
  simp [strLt_irrefl]

/-! ## C1: symmetry and idempotence of ensure_group -/

/-- C1, amended: for every pair of city names whose normalized forms are
case-insensitively distinct (or literally identical after
normalization), ensure_group is symmetric in its two arguments, and
repeated calls with the same (possibly swapped) pair return the same id
and leave the table unchanged.  The restriction is forced: two distinct
names that lowercase to the same string are ordered differently by the
two calls, see the counterexample. -/
theorem ensure_group_symm_idem (gt : GroupTable) (a b : Str)
    (h : lowerStr (norm_city a) ≠ lowerStr (norm_city b) ∨ norm_city a = norm_city b) :
    ensure_group gt a b = ensure_group gt b a ∧
    ensure_group (ensure_group gt a b).2 a b = ensure_group gt a b ∧
    ensure_group (ensure_group gt a b).2 b a = ensure_group gt a b := by
  refine ⟨ensure_group_symm gt a b h, ensure_group_idem gt a b, ?_⟩
  rw [ensure_group_symm (ensure_group gt a b).2 b a
        (by rcases h with h | h; exacts [Or.inl (Ne.symm h), Or.inr h.symm])]
  exact ensure_group_idem gt a b

/-- Witness for C1 at the pair (A, B) over the empty table. -/
theorem ensure_group_symm_idem_witness :
    (lowerStr (norm_city (S "A")) ≠ lowerStr (norm_city (S "B")) ∨
      norm_city (S "A") = norm_city (S "B")) ∧
    (ensure_group { rows := [], nextId := 0 } (S "A") (S "B") =
        ensure_group { rows := [], nextId := 0 } (S "B") (S "A") ∧
      ensure_group (ensure_group { rows := [], nextId := 0 } (S "A") (S "B")).2 (S "A") (S "B") =
        ensure_group { rows := [], nextId := 0 } (S "A") (S "B") ∧
      ensure_group (ensure_group { rows := [], nextId := 0 } (S "A") (S "B")).2 (S "B") (S "A") =
        ensure_group { rows := [], nextId := 0 } (S "A") (S "B")) :=
  ⟨Or.inl (by decide),
   ensure_group_symm_idem { rows := [], nextId := 0 } (S "A") (S "B") (Or.inl (by decide))⟩

/-- Counterexample to C1 as stated: the names A and a (equal only
case-insensitively) are canonically ordered differently by the two
calls, so the swapped call creates a second group with a fresh id. -/
theorem ensure_group_symm_cex :
    (ensure_group (ensure_group { rows := [], nextId := 0 } (S "A") (S "a")).2
        (S "a") (S "A")).1 ≠
      (ensure_group { rows := [], nextId := 0 } (S "A") (S "a")).1 := by decide

/-! ## C10: degenerate pairs are accepted -/

/-- C10, amended: calling ensure_group with twice the same name (so both
arguments normalize to the identical string) succeeds, creates or
returns a group whose city_a and city_b are both that normalized name,
and calling it again returns the same id over the unchanged table. -/
theorem ensure_group_degenerate (gt : GroupTable) (c : Str) :
    (∃ g ∈ (ensure_group gt c c).2.rows,
        g.id = (ensure_group gt c c).1 ∧
        g.city_a = norm_city c ∧ g.city_b = norm_city c) ∧
    ensure_group (ensure_group gt c c).2 c c = ensure_group gt c c := by
  constructor
  · have hm := ensure_group_mem gt c c
    rwa [canonPair_self] at hm
  · exact ensure_group_idem gt c c

/-- Counterexample to C10 as stated: with the two case-variants A and a
of one name, the call succeeds but stores a group whose city_a and
city_b differ, and the swapped repetition returns a different id. -/
theorem ensure_group_degenerate_cex :
    ((ensure_group { rows := [], nextId := 0 } (S "A") (S "a")).2.rows.map
        (fun g => (g.city_a, g.city_b))) = [(S "a", S "A")] ∧
    S "a" ≠ S "A" ∧
    (ensure_group (ensure_group { rows := [], nextId := 0 } (S "A") (S "a")).2
        (S "a") (S "A")).1 = 1 ∧
    (ensure_group { rows := [], nextId := 0 } (S "A") (S "a")).1 = 0 := by decide

/-! ## C6: parse_path -/

theorem collapseAux_chain (rest : List Str) : ∀ prev,
    List.Chain' (fun a b => lowerStr a ≠ lowerStr b) (prev :: collapseAux prev rest) := by
  induction rest with
  | nil => intro prev; simp [collapseAux]
  | cons q r ih =>
      intro prev
      by_cases hq : lowerStr q = lowerStr prev
      · simpa [collapseAux, hq] using ih prev
      · have hc := ih q
        simp only [collapseAux, hq, if_false]
        exact List.Chain'.cons (fun hh => hq hh.symm) hc

theorem collapse_chain (l : List Str) :
    List.Chain' (fun a b => lowerStr a ≠ lowerStr b) (collapse l) := by
  cases l with
  | nil => simp [collapse]
  | cons p rest => exact collapseAux_chain rest p

theorem collapseAux_subset (rest : List Str) : ∀ prev x, x ∈ collapseAux prev rest → x ∈ rest := by
  induction rest with
  | nil => intro prev x hx; simp [collapseAux] at hx
  | cons q r ih =>
      intro prev x hx
      by_cases hq : lowerStr q = lowerStr prev
      · simp only [collapseAux, hq, if_true] at hx
        exact List.mem_cons_of_mem q (ih prev x hx)
      · simp only [collapseAux, hq, if_false, List.mem_cons] at hx
        rcases hx with hx | hx
        · exact hx ▸ List.mem_cons_self q r
        · exact List.mem_cons_of_mem q (ih q x hx)

theorem collapse_subset (l : List Str) : ∀ x ∈ collapse l, x ∈ l := by
  cases l with
  | nil => simp [collapse]
  | cons p rest =>
      intro x hx
      simp only [collapse, List.mem_cons] at hx
      rcases hx with hx | hx
      · exact hx ▸ List.mem_cons_self p rest
      · exact List.mem_cons_of_mem p (collapseAux_subset rest p x hx)

/-- Successful parses are collapses of the normalized pieces, at least
two entries long. -/
theorem parse_path_ok {s : Str} {out : List Str} (h : parse_path s = .ok out) :
    out = collapse (((splitDelim s).filter
        (fun p => !p.isEmpty && !(norm_city p).isEmpty)).map norm_city) ∧
    2 ≤ out.length := by
  simp only [parse_path] at h
  split at h
  · exact absurd h (by simp)
  · rename_i hlen
    cases h
    exact ⟨rfl, by omega⟩

/-- C6: parse_path splits on the hyphen, em-dash, arrow and > delimiter
characters with optional surrounding whitespace, normalizes the pieces,
drops empty ones, collapses immediately-repeated cities
case-insensitively, and fails with the ValidationError message when
fewer than two stops remain; every successful output has at least two
case-insensitively distinct entries, so any input retaining fewer than
two distinct stops is rejected. -/
theorem parse_path_spec :
    parse_path (S "A - A - B") = .ok [S "A", S "B"] ∧
    parse_path (S "A -> B") = .ok [S "A", S "B"] ∧
    parse_path (S "A — B → C") = .ok [S "A", S "B", S "C"] ∧
    parse_path (S "OnlyCity") = .error (.validation msgMin2) ∧
    (∀ s out, parse_path s = .ok out →
      2 ≤ out.length ∧
      out.Chain' (fun a b => lowerStr a ≠ lowerStr b) ∧
      ∃ x ∈ out, ∃ y ∈ out, lowerStr x ≠ lowerStr y) := by
  refine ⟨by decide, by decide, by decide, by decide, ?_⟩
  intro s out h
  obtain ⟨hout, hlen⟩ := parse_path_ok h
  have hchain : out.Chain' (fun a b => lowerStr a ≠ lowerStr b) := hout ▸ collapse_chain _
  refine ⟨hlen, hchain, ?_⟩
  match out, hlen with
  | x :: y :: t, _ =>
      have hxy : lowerStr x ≠ lowerStr y := (List.chain'_cons.mp hchain).1
      exact ⟨x, List.mem_cons_self _ _, y, List.mem_cons_of_mem x (List.mem_cons_self _ _), hxy⟩

/-- Witness for C6 at the parse of A - A - B. -/
theorem parse_path_spec_witness :
    2 ≤ [S "A", S "B"].length ∧
    [S "A", S "B"].Chain' (fun a b => lowerStr a ≠ lowerStr b) ∧
    ∃ x ∈ [S "A", S "B"], ∃ y ∈ [S "A", S "B"], lowerStr x ≠ lowerStr y :=
  parse_path_spec.2.2.2.2 (S "A - A - B") [S "A", S "B"] (by decide)

/-! ## C5: variant round trip -/

/-- C5: whichever way the pair is given to ensure_group (the canonical
order of the group is the same table either way), creating a variant
from the path A - B - C and reading the group back yields exactly the
stops (0,A), (100,B), (9999,C). -/
theorem variant_round_trip :
    ensure_group { rows := [], nextId := 0 } (S "C") (S "A") = c5gt ∧
    (c5res.toOption.map (fun r => (get_group r.2 c5gt.1).toOption.map
        (fun t => t.2.1.map (fun v => v.2)))) =
      some (some [[(0, S "A"), (100, S "B"), (9999, S "C")]]) := by decide

/-! ## Idempotence of norm_city -/

theorem wordsGo_nospace : ∀ (w cur s : Str), (∀ c ∈ w, isSpace c = false) →
    wordsGo cur (w ++ s) = wordsGo (w.reverse ++ cur) s := by
  intro w
  induction w with
  | nil => intro cur s _; simp
  | cons c w' ih =>
      intro cur s hw
      have hc : isSpace c = false := hw c (List.mem_cons_self c w')
      have hw' : ∀ c ∈ w', isSpace c = false := fun x hx => hw x (List.mem_cons_of_mem c hx)
      simp only [List.cons_append, wordsGo, hc, Bool.false_eq_true, if_false]
      rw [show w'.append s = w' ++ s from rfl, ih (c :: cur) s hw']
      simp

theorem wordsGo_mem : ∀ (s cur : Str), (∀ c ∈ cur, isSpace c = false) →
    ∀ w ∈ wordsGo cur s, w ≠ [] ∧ ∀ c ∈ w, isSpace c = false := by
  intro s
  induction s with
  | nil =>
      intro cur hcur w hw
      simp only [wordsGo] at hw
      by_cases hc : cur.isEmpty
      · simp [hc] at hw
      · simp only [hc, Bool.false_eq_true, if_false, List.mem_singleton] at hw
        subst hw
        refine ⟨fun hh => hc (by simpa using congrArg List.isEmpty hh), ?_⟩
        intro c hcm
        exact hcur c (List.mem_reverse.mp hcm)
  | cons c cs ih =>
      intro cur hcur w hw
      simp only [wordsGo] at hw
      by_cases hsp : isSpace c
      · simp only [hsp, if_true] at hw
        by_cases hc : cur.isEmpty
        · simp only [hc, if_true] at hw
          exact ih [] (by simp) w hw
        · simp only [hc, Bool.false_eq_true, if_false, List.mem_cons] at hw
          rcases hw with hw | hw
          · subst hw
            refine ⟨fun hh => hc (by simpa using congrArg List.isEmpty hh), ?_⟩
            intro x hxm
            exact hcur x (List.mem_reverse.mp hxm)
          · exact ih [] (by simp) w hw
      · simp only [hsp, if_false] at hw
        refine ih (c :: cur) ?_ w hw
        intro x hx
        rcases List.mem_cons.mp hx with hx | hx
        · subst hx; simpa using hsp
        · exact hcur x hx

theorem words_mem {s : Str} : ∀ w ∈ words s, w ≠ [] ∧ ∀ c ∈ w, isSpace c = false :=
  wordsGo_mem s [] (by simp)

theorem words_joinSp : ∀ ws : List Str,
    (∀ w ∈ ws, w ≠ [] ∧ ∀ c ∈ w, isSpace c = false) → words (joinSp ws) = ws := by
  intro ws
  induction ws with
  | nil => intro _; rfl
  | cons w ws' ih =>
      intro hws
      have hw := hws w (List.mem_cons_self w ws')
      have hws' : ∀ x ∈ ws', x ≠ [] ∧ ∀ c ∈ x, isSpace c = false :=
        fun x hx => hws x (List.mem_cons_of_mem w hx)
      have hne : w.reverse.isEmpty = false := by
        rw [List.isEmpty_eq_false]
        simpa [List.reverse_eq_nil_iff] using hw.1
      cases ws' with
      | nil =>
          show words w = [w]
          have h1 := wordsGo_nospace w [] [] hw.2
          simp only [List.append_nil] at h1
          unfold words
          rw [h1]
          simp [wordsGo, hne]
      | cons w2 ws2 =>
          show words (w ++ ' ' :: joinSp (w2 :: ws2)) = w :: w2 :: ws2
          unfold words
          rw [wordsGo_nospace w [] (' ' :: joinSp (w2 :: ws2)) hw.2]
          simp only [List.append_nil, wordsGo]
          rw [if_pos (by simp [isSpace])]
          rw [if_neg (by simp [hne])]
          simp only [List.reverse_reverse]
          rw [show wordsGo [] (joinSp (w2 :: ws2)) = words (joinSp (w2 :: ws2)) from rfl]
          rw [ih hws']

theorem norm_city_idem (s : Str) : norm_city (norm_city s) = norm_city s := by
  unfold norm_city
  rw [words_joinSp (words s) (fun w hw => words_mem w hw)]

/-! ## C3: the stop-list invariants -/

theorem seqLoop_snd (n : Nat) : ∀ (rest : List Str) (i seq : Nat),
    (seqLoop n i seq rest).map Prod.snd = rest := by
  intro rest
  induction rest with
  | nil => intro i seq; rfl
  | cons c r ih => intro i seq; simp [seqLoop, ih]

theorem seqLoop_fst (n : Nat) : ∀ (rest : List Str) (i seq : Nat),
    rest ≠ [] → i + rest.length = n → (rest.length = 1 ∨ seq = 100 * i) →
    (seqLoop n i seq rest).map Prod.fst =
      (List.range (rest.length - 1)).map (fun j => 100 * (i + j)) ++ [9999] := by
  intro rest
  induction rest with
  | nil => intro i seq h; exact absurd rfl h
  | cons c r ih =>
      intro i seq _ hlen hseq
      cases r with
      | nil =>
          have hi : i = n - 1 := by simp only [List.length_cons, List.length_nil] at hlen; omega
          simp [seqLoop, hi]
      | cons c2 r2 =>
          have hlen2 : i + r2.length + 2 = n := by
            simp only [List.length_cons] at hlen; omega
          have hne : ¬ (i = n - 1) := by omega
          have hs : seq = 100 * i := by
            rcases hseq with h | h
            · simp at h
            · exact h
          subst hs
          have hrec : (seqLoop n (i + 1) (if i < n - 2 then 100 * i + 100 else 100 * i)
              (c2 :: r2)).map Prod.fst =
              (List.range ((c2 :: r2).length - 1)).map (fun j => 100 * (i + 1 + j)) ++ [9999] := by
            cases r2 with
            | nil =>
                apply ih (i + 1) _ (by simp) (by simp only [List.length_cons] at hlen ⊢; omega)
                exact Or.inl (by simp)
            | cons c3 r3 =>
                have hlt : i < n - 2 := by
                  simp only [List.length_cons] at hlen2; omega
                have hite : (if i < n - 2 then 100 * i + 100 else 100 * i) = 100 * (i + 1) := by
                  rw [if_pos hlt]; ring
                rw [hite]
                apply ih (i + 1) _ (by simp) (by simp only [List.length_cons] at hlen ⊢; omega)
                exact Or.inr rfl
          rw [show seqLoop n i (100 * i) (c :: c2 :: r2) =
              ((if i = n - 1 then 9999 else 100 * i), c) ::
                seqLoop n (i + 1)
                  (if i < n - 2 then (if i = n - 1 then 9999 else 100 * i) + 100
                   else (if i = n - 1 then 9999 else 100 * i)) (c2 :: r2) from rfl]
          rw [if_neg hne]
          simp only [List.map_cons]
          rw [hrec]
          have hl1 : (c :: c2 :: r2).length - 1 = r2.length + 1 := by
            simp only [List.length_cons]; omega
          have hl2 : (c2 :: r2).length - 1 = r2.length := by
            simp only [List.length_cons]; omega
          rw [hl1, hl2, List.range_succ_eq_map, List.map_cons, List.map_map]
          simp only [List.cons_append, List.cons.injEq]
          refine ⟨by omega, ?_⟩
          refine congrArg (fun l => l ++ [9999]) ?_
          apply List.map_congr_left
          intro a _
          simp only [Function.comp_apply]
          omega

theorem strictInc_tail {a : Nat} {l : List Nat} (h : strictInc (a :: l) = true) :
    strictInc l = true := by
  cases l with
  | nil => rfl
  | cons b t =>
      simp only [strictInc, Bool.and_eq_true] at h
      exact h.2

theorem assign_snd (stops : List Str) : (assign_seqs stops).map Prod.snd = stops :=
  seqLoop_snd stops.length stops 0 0

theorem assign_length (stops : List Str) : (assign_seqs stops).length = stops.length := by
  simpa using congrArg List.length (assign_snd stops)

theorem assign_fst (stops : List Str) (h2 : 2 ≤ stops.length) :
    (assign_seqs stops).map Prod.fst = canonSeqs stops.length := by
  unfold assign_seqs canonSeqs
  have hne : stops ≠ [] := by
    intro h; rw [h] at h2; simp at h2
  have h := seqLoop_fst stops.length stops 0 0 hne (by omega) (Or.inr (by ring))
  rw [h]
  refine congrArg (fun l => l ++ [9999]) ?_
  apply List.map_congr_left
  intro a _
  omega

theorem strictInc_chain : ∀ (l : List Nat), strictInc l = true ↔ l.Chain' (· < ·)
  | [] => by simp [strictInc]
  | [a] => by simp [strictInc]
  | a :: b :: t => by
      simp only [strictInc, Bool.and_eq_true, decide_eq_true_eq, List.chain'_cons]
      exact and_congr_right (fun _ => strictInc_chain (b :: t))

theorem strictInc_canon (n : Nat) (h101 : n ≤ 101) : strictInc (canonSeqs n) = true := by
  rw [strictInc_chain, List.chain'_iff_pairwise]
  unfold canonSeqs
  rw [List.pairwise_append]
  refine ⟨?_, by simp, ?_⟩
  · rw [List.pairwise_map]
    exact (List.pairwise_lt_range (n - 1)).imp (fun hab => by omega)
  · intro x hx y hy
    simp only [List.mem_map, List.mem_range] at hx
    simp only [List.mem_singleton] at hy
    obtain ⟨i, hi, rfl⟩ := hx
    subst hy
    omega

theorem adjOk_chain : ∀ (l : List Str),
    adjOkLower l = true ↔ l.Chain' (fun a b => lowerStr a ≠ lowerStr b)
  | [] => by simp [adjOkLower]
  | [a] => by simp [adjOkLower]
  | a :: b :: t => by
      simp only [adjOkLower, Bool.and_eq_true, decide_eq_true_eq, List.chain'_cons]
      exact and_congr_right (fun _ => adjOk_chain (b :: t))

theorem adjOk_reverse (l : List Str) : adjOkLower l.reverse = true ↔ adjOkLower l = true := by
  rw [adjOk_chain, adjOk_chain, List.chain'_reverse]
  constructor <;> exact fun h => h.imp (fun a b hab => Ne.symm hab)

theorem canonSeqs_head (n : Nat) (h2 : 2 ≤ n) : (canonSeqs n).head? = some 0 := by
  unfold canonSeqs
  obtain ⟨k, hk⟩ : ∃ k, n - 1 = k + 1 := ⟨n - 2, by omega⟩
  rw [hk, List.range_succ_eq_map]
  simp

theorem canonSeqs_last (n : Nat) : (canonSeqs n).getLast? = some 9999 := by
  unfold canonSeqs
  exact List.getLast?_concat _

/-- The claimed invariants hold for the seq assignment of any stop list
of 2 to 101 entries without adjacent case-insensitive duplicates. -/
theorem goodStops_assign (fs : List Str) (h2 : 2 ≤ fs.length) (h101 : fs.length ≤ 101)
    (hadj : adjOkLower fs = true) : goodStops (assign_seqs fs) = true := by
  have hsnd := assign_snd fs
  have hlen := assign_length fs
  have hfst := assign_fst fs h2
  unfold goodStops
  simp only [Bool.and_eq_true, decide_eq_true_eq, beq_iff_eq]
  refine ⟨⟨⟨⟨⟨?_, ?_⟩, ?_⟩, ?_⟩, ?_⟩, ?_⟩
  · omega
  · rw [hfst, hlen]
  · rw [hfst]; exact strictInc_canon _ h101
  · rw [← List.head?_map, hfst]; exact canonSeqs_head _ h2
  · rw [← List.getLast?_map, hfst]; exact canonSeqs_last _
  · rw [hsnd]; exact hadj

theorem sortBySeq_id : ∀ (l : List VStop),
    strictInc (l.map (fun s => s.seq)) = true → sortBySeq l = l := by
  intro l
  induction l with
  | nil => intro _; rfl
  | cons x t ih =>
      intro h
      have ht : strictInc (t.map (fun s => s.seq)) = true :=
        strictInc_tail (by simpa using h)
      show insertBySeq x (sortBySeq t) = x :: t
      rw [ih ht]
      cases t with
      | nil => rfl
      | cons y ys =>
          have hxy : x.seq < y.seq := by
            simp only [List.map_cons, strictInc, Bool.and_eq_true, decide_eq_true_eq] at h
            exact h.1
          unfold insertBySeq
          rw [if_neg (by omega)]

/-- Reading back the stops of one variant after its rows have been
written: the rows of other variants are filtered away, the fresh rows
are already in seq order, and the (seq, city) pairs are recovered. -/
theorem stops_read (old : List VStop) (vid : Nat) (fs : List Str)
    (hold : ∀ s ∈ old, (s.variant_id == vid) = false)
    (h2 : 2 ≤ fs.length) (h101 : fs.length ≤ 101) :
    (sortBySeq ((old ++ (assign_seqs fs).map (fun p => (⟨vid, p.1, p.2⟩ : VStop))).filter
        (fun s => s.variant_id == vid))).map (fun s => (s.seq, s.city)) = assign_seqs fs := by
  set rows := (assign_seqs fs).map (fun p => (⟨vid, p.1, p.2⟩ : VStop)) with hrows
  have h1 : old.filter (fun s => s.variant_id == vid) = [] := by
    rw [List.filter_eq_nil_iff]
    intro a ha
    simp [hold a ha]
  have h2f : rows.filter (fun s => s.variant_id == vid) = rows := by
    rw [List.filter_eq_self]
    intro a ha
    rw [hrows] at ha
    simp only [List.mem_map] at ha
    obtain ⟨p, _, rfl⟩ := ha
    simp
  have hseqs : rows.map (fun s => s.seq) = (assign_seqs fs).map Prod.fst := by
    rw [hrows, List.map_map]
    rfl
  rw [List.filter_append, h1, h2f, List.nil_append]
  rw [sortBySeq_id rows (by rw [hseqs, assign_fst fs h2]; exact strictInc_canon _ h101)]
  rw [hrows, List.map_map]
  have : ((fun s => (s.seq, s.city)) ∘ fun p => (⟨vid, p.1, p.2⟩ : VStop)) =
      fun p : Nat × Str => (p.1, p.2) := rfl
  rw [this]
  simp

/-- Characterization of a successful create_variant: the parsed path,
possibly reversed to the canonical direction, is seq-assigned and
appended under the fresh variant id. -/
theorem create_variant_ok {db : DB} {gid : Nat} {title : Option Str} {path : Str}
    {vid : Nat} {db2 : DB} (h : create_variant db gid title path = .ok (vid, db2)) :
    ∃ ps, parse_path path = .ok ps ∧ vid = db.nextVariantId ∧
      ∃ fs, (fs = ps ∨ fs = ps.reverse) ∧
        db2.stops = db.stops ++ (assign_seqs (fs.map norm_city)).map
          (fun p => (⟨vid, p.1, p.2⟩ : VStop)) := by
  unfold create_variant at h
  cases hg : db.groupTable.rows.find? (fun g => g.id == gid) with
  | none => rw [hg] at h; exact absurd h (by simp)
  | some g =>
      rw [hg] at h
      cases hp : parse_path path with
      | error e => rw [hp] at h; exact absurd h (by simp)
      | ok ps =>
          rw [hp] at h
          by_cases hb : variantBelongs g.city_a g.city_b ps = true
          · simp only [hb, Bool.not_true, Bool.false_eq_true, if_false] at h
            refine ⟨ps, rfl, ?_, ?_⟩
            · by_cases hc : (lowerStr (ps.headD []) == lowerStr g.city_a &&
                  lowerStr (ps.getLastD []) == lowerStr g.city_b) = true
              · simp only [hc, Bool.not_true, Bool.false_eq_true, if_false,
                  Except.ok.injEq, Prod.mk.injEq] at h
                exact h.1.symm
              · simp only [Bool.not_eq_true] at hc
                simp only [hc, Bool.not_false, if_true,
                  Except.ok.injEq, Prod.mk.injEq] at h
                exact h.1.symm
            · by_cases hc : (lowerStr (ps.headD []) == lowerStr g.city_a &&
                  lowerStr (ps.getLastD []) == lowerStr g.city_b) = true
              · simp only [hc, Bool.not_true, Bool.false_eq_true, if_false,
                  Except.ok.injEq, Prod.mk.injEq] at h
                refine ⟨ps, Or.inl rfl, ?_⟩
                rw [← h.2, ← h.1]
              · simp only [Bool.not_eq_true] at hc
                simp only [hc, Bool.not_false, if_true,
                  Except.ok.injEq, Prod.mk.injEq] at h
                refine ⟨ps.reverse, Or.inr rfl, ?_⟩
                rw [← h.2, ← h.1]
          · simp only [Bool.not_eq_true] at hb
            simp only [hb, Bool.not_false, if_true] at h
            exact absurd h (by simp)

/-- Characterization of a successful replace_variant_stops: the
filtered normalized payload, possibly reversed, is written through. -/
theorem replace_ok {db : DB} {vid : Nat} {payload : List Str} {db2 : DB}
    (h : replace_variant_stops db vid payload = .ok db2) :
    ∃ fs, (fs = replStops payload ∨ fs = (replStops payload).reverse) ∧
      2 ≤ fs.length ∧ db2 = writeStops db vid fs := by
  unfold replace_variant_stops at h
  split at h
  · exact absurd h (by simp)
  · split at h
    · exact absurd h (by simp)
    · dsimp only at h
      split at h
      · exact absurd h (by simp)
      · rename_i hlen
        split at h
        · simp only [Except.ok.injEq] at h
          exact ⟨replStops payload, Or.inl rfl, by omega, h.symm⟩
        · split at h
          · simp only [Except.ok.injEq] at h
            refine ⟨(replStops payload).reverse, Or.inr rfl, ?_, h.symm⟩
            rw [List.length_reverse]
            omega
          · exact absurd h (by simp)

/-- C3, amended: after create_variant with a parsed path of at most 101
stops, and after replace_variant_stops with a filtered stop list of at
most 101 entries that has no adjacent case-insensitive duplicates, the
stored stops of the written variant satisfy all the claimed invariants:
at least 2 stops, strictly increasing seq, first seq 0, last seq 9999,
increments of 100 before the sentinel, and no two consecutive stops
with the same normalized city.  The restrictions are forced: with 102
stops the penultimate seq reaches 10000 past the 9999 sentinel, and
replace_variant_stops does not collapse adjacent duplicates, see the
counterexample. -/
theorem stops_invariants :
    (∀ db gid title path vid db2, create_variant db gid title path = .ok (vid, db2) →
      (∀ s ∈ db.stops, s.variant_id ≠ db.nextVariantId) →
      (∀ ps, parse_path path = .ok ps → ps.length ≤ 101) →
      goodStops (variant_stops db2 vid) = true) ∧
    (∀ db vid payload db2, replace_variant_stops db vid payload = .ok db2 →
      (replStops payload).length ≤ 101 →
      adjOkLower (replStops payload) = true →
      goodStops (variant_stops db2 vid) = true) := by
  constructor
  · intro db gid title path vid db2 h hfresh h101
    obtain ⟨ps, hp, hvid, fs, hfs, hstops⟩ := create_variant_ok h
    obtain ⟨hcoll, hlen2⟩ := parse_path_ok hp
    have hnormfix : ∀ x ∈ ps, norm_city x = x := by
      intro x hx
      rw [hcoll] at hx
      have hx2 := collapse_subset _ x hx
      simp only [List.mem_map] at hx2
      obtain ⟨y, _, rfl⟩ := hx2
      exact norm_city_idem y
    have hnorm : ps.map norm_city = ps := by
      rw [List.map_congr_left hnormfix]
      simp
    have hchain : adjOkLower ps = true := by
      rw [adjOk_chain, hcoll]
      exact collapse_chain _
    have hfs_norm : fs.map norm_city = fs := by
      rcases hfs with rfl | rfl
      · exact hnorm
      · rw [List.map_reverse, hnorm]
    have hfs_len : fs.length = ps.length := by
      rcases hfs with rfl | rfl <;> simp
    have hfs_adj : adjOkLower fs = true := by
      rcases hfs with rfl | rfl
      · exact hchain
      · rw [adjOk_reverse]; exact hchain
    have hread : variant_stops db2 vid = assign_seqs (fs.map norm_city) := by
      unfold variant_stops
      rw [hstops]
      refine stops_read db.stops vid (fs.map norm_city) ?_ ?_ ?_
      · intro s hs
        rw [hvid]
        exact beq_eq_false_iff_ne.mpr (hfresh s hs)
      · rw [List.length_map]; omega
      · rw [List.length_map]
        have := h101 ps hp
        omega
    rw [hread, hfs_norm]
    refine goodStops_assign fs (by omega) ?_ hfs_adj
    have := h101 ps hp
    omega
  · intro db vid payload db2 h h101 hadj
    obtain ⟨fs, hfs, hlen2, rfl⟩ := replace_ok h
    have hfs_len : fs.length = (replStops payload).length := by
      rcases hfs with rfl | rfl <;> simp
    have hfs_adj : adjOkLower fs = true := by
      rcases hfs with rfl | rfl
      · exact hadj
      · rw [adjOk_reverse]; exact hadj
    have hread : variant_stops (writeStops db vid fs) vid = assign_seqs fs := by
      unfold variant_stops
      refine stops_read (db.stops.filter (fun s => !(s.variant_id == vid))) vid fs ?_ hlen2
        (by omega)
      intro s hs
      simpa using (List.mem_filter.mp hs).2
    rw [hread]
    exact goodStops_assign fs hlen2 (by omega) hfs_adj

/-- Witness for C3: one create and one replace over the (A, C) group. -/
theorem stops_invariants_witness :
    goodStops (variant_stops c3dbCreate 1) = true ∧
    goodStops (variant_stops (writeStops c3db 0 [S "A", S "B", S "C"]) 0) = true :=
  ⟨stops_invariants.1 c3db 0 none (S "A - B - C") 1 c3dbCreate (by decide) (by decide)
     (fun ps hps => by
        have h0 : parse_path (S "A - B - C") = .ok [S "A", S "B", S "C"] := by decide
        rw [h0] at hps
        cases hps
        decide),
   stops_invariants.2 c3db 0 [S "A", S "B", S "C"]
     (writeStops c3db 0 [S "A", S "B", S "C"]) (by decide) (by decide) (by decide)⟩

/-- Counterexample to C3 as stated: replace_variant_stops accepts the
list A, B, B, C and stores two consecutive identical stops, and
create_variant with a valid 102-stop path stores seq 10000 after the
9999 sentinel, breaking the strict-increase, last-stop and increment
invariants. -/
theorem stops_invariants_cex :
    (replace_variant_stops c3db 0 [S "A", S "B", S "B", S "C"]).isOk = true ∧
    goodStops (variant_stops (committed (replace_variant_stops c3db 0
        [S "A", S "B", S "B", S "C"]) c3db) 0) = false ∧
    (create_variant bigDB 0 none bigPath).isOk = true ∧
    (match create_variant bigDB 0 none bigPath with
      | .ok r => goodStops (variant_stops r.2 r.1)
      | .error _ => true) = false := by decide

/-! ## C2 and C4: segment derivation -/

/-- Characterization of a successful scan of auto_derive_segment: some
listed variant is active, carries both (case-insensitively looked-up)
cities, the returned path is the directional slice of its stops, the
group id comes from ensure_group on the normalized pair, and the store
gains at most the one segment row via the conflict-tolerant insert. -/
theorem adGo_ok {db : DB} {o d : Str} :
    ∀ {vl : List Variant} {gid pv : Nat} {path : List Str} {db2 : DB},
    adGo db o d vl = .ok ((gid, pv, path), db2) →
    ∃ v ∈ vl, v.is_active = true ∧ pv = v.id ∧
      ∃ so sd,
        seqOf (variantStops db v.id) (lowerStr o) = some so ∧
        seqOf (variantStops db v.id) (lowerStr d) = some sd ∧
        path = sliceSpec (variantStops db v.id) so sd ∧
        gid = (ensure_group db.groupTable o d).1 ∧
        db2.groupTable = (ensure_group db.groupTable o d).2 ∧
        db2.variants = db.variants ∧
        db2.nextVariantId = db.nextVariantId ∧
        db2.stops = db.stops ∧
        db2.links = db.links ∧
        db2.carriers = db.carriers ∧
        db2.segments = insertSeg db.segments
          (if so < sd then (⟨gid, v.id, so, sd⟩ : Segment)
           else (⟨gid, v.id, sd, so⟩ : Segment)) := by
  intro vl
  induction vl with
  | nil => intro gid pv path db2 h; exact absurd h (by simp [adGo])
  | cons v rest ih =>
      intro gid pv path db2 h
      unfold adGo at h
      split at h
      · rename_i hact
        dsimp only at h
        split at h
        · rename_i so sd hso hsd
          simp only [Except.ok.injEq, Prod.mk.injEq] at h
          obtain ⟨⟨hgid, hpv, hpath⟩, hdb2⟩ := h
          subst hdb2
          refine ⟨v, List.mem_cons_self v rest, ?_, hpv.symm, so, sd, hso, hsd,
            ?_, hgid.symm, rfl, rfl, rfl, rfl, rfl, rfl, ?_⟩
          · simp only [Bool.and_eq_true] at hact
            exact hact.1
          · rw [← hpath]; rfl
          · rw [← hgid]
        · obtain ⟨v2, hv2, hrest⟩ := ih h
          exact ⟨v2, List.mem_cons_of_mem v hv2, hrest⟩
      · obtain ⟨v2, hv2, hrest⟩ := ih h
        exact ⟨v2, List.mem_cons_of_mem v hv2, hrest⟩

/-- C2: whenever auto_derive_segment succeeds, the returned parent is an
active variant containing both looked-up cities, and the returned path
is exactly the contiguous sub-path of that variant between the two seq
positions, walked in the direction of the caller (sliceSpec is worded
from the spec).  Concretely, over the variant A(0) B(100) C(200)
D(9999), deriving (B, D) returns the path B, C, D and registers the
segment (100, 9999) once; an identical second call returns the same
response and the same store, inserting no second segment row. -/
theorem auto_derive_slice :
    (∀ db o d gid pv path db2,
      auto_derive_segment db o d = .ok ((gid, pv, path), db2) →
      ∃ v ∈ db.variants, v.is_active = true ∧ pv = v.id ∧
        ∃ so sd,
          seqOf (variantStops db v.id) (lowerStr (norm_city o)) = some so ∧
          seqOf (variantStops db v.id) (lowerStr (norm_city d)) = some sd ∧
          path = sliceSpec (variantStops db v.id) so sd) ∧
    auto_derive_segment exDB (S "B") (S "D") =
      .ok ((1, 0, [S "B", S "C", S "D"]), adDB exDB (S "B") (S "D")) ∧
    (adDB exDB (S "B") (S "D")).segments = [⟨1, 0, 100, 9999⟩] ∧
    auto_derive_segment (adDB exDB (S "B") (S "D")) (S "B") (S "D") =
      .ok ((1, 0, [S "B", S "C", S "D"]), adDB exDB (S "B") (S "D")) := by
  refine ⟨?_, by decide, by decide, by decide⟩
  intro db o d gid pv path db2 h
  obtain ⟨v, hv, hact, hpv, so, sd, hso, hsd, hpath, _⟩ := adGo_ok h
  exact ⟨v, hv, hact, hpv, so, sd, hso, hsd, hpath⟩

/-- Witness for C2 over the concrete store exDB. -/
theorem auto_derive_slice_witness :
    ∃ v ∈ exDB.variants, v.is_active = true ∧ 0 = v.id ∧
      ∃ so sd,
        seqOf (variantStops exDB v.id) (lowerStr (norm_city (S "B"))) = some so ∧
        seqOf (variantStops exDB v.id) (lowerStr (norm_city (S "D"))) = some sd ∧
        [S "B", S "C", S "D"] = sliceSpec (variantStops exDB v.id) so sd :=
  auto_derive_slice.1 exDB (S "B") (S "D") 1 0 [S "B", S "C", S "D"]
    (adDB exDB (S "B") (S "D")) (by decide)

/-- C4, amended: every RouteVariantSegment registered by a successful
auto_derive_segment has bounds (min, max) of the two resolved seq
positions, so start_seq is at most end_seq, and start_seq is strictly
below end_seq whenever origin and destination resolve to different seq
positions (strictness can only fail when both resolve to the same stop,
see the counterexample); re-deriving a tuple already present is a
silent no-op on the segments table rather than a duplicate insert;
concretely, repeating the (B, D) derivation returns the same response
over the unchanged store. -/
theorem segment_invariant :
    (∀ db o d gid pv path db2,
      auto_derive_segment db o d = .ok ((gid, pv, path), db2) →
      ∃ so sd,
        seqOf (variantStops db pv) (lowerStr (norm_city o)) = some so ∧
        seqOf (variantStops db pv) (lowerStr (norm_city d)) = some sd ∧
        ∃ s e, s = min so sd ∧ e = max so sd ∧ s ≤ e ∧
          (so ≠ sd → s < e) ∧
          db2.segments = insertSeg db.segments ⟨gid, pv, s, e⟩ ∧
          ((⟨gid, pv, s, e⟩ : Segment) ∈ db.segments → db2.segments = db.segments) ∧
          ((⟨gid, pv, s, e⟩ : Segment) ∉ db.segments →
            db2.segments = db.segments ++ [⟨gid, pv, s, e⟩])) ∧
    adDB (adDB exDB (S "B") (S "D")) (S "B") (S "D") = adDB exDB (S "B") (S "D") ∧
    adOut (adDB exDB (S "B") (S "D")) (S "B") (S "D") = adOut exDB (S "B") (S "D") := by
  refine ⟨?_, by decide, by decide⟩
  intro db o d gid pv path db2 h
  obtain ⟨v, _, _, hpv, so, sd, hso, hsd, _, _, _, _, _, _, _, _, hseg⟩ := adGo_ok h
  subst hpv
  have hminmax : (if so < sd then (⟨gid, v.id, so, sd⟩ : Segment)
      else (⟨gid, v.id, sd, so⟩ : Segment)) = ⟨gid, v.id, min so sd, max so sd⟩ := by
    by_cases hlt : so < sd
    · rw [if_pos hlt]
      have h1 : min so sd = so := by omega
      have h2 : max so sd = sd := by omega
      rw [h1, h2]
    · rw [if_neg hlt]
      have h1 : min so sd = sd := by omega
      have h2 : max so sd = so := by omega
      rw [h1, h2]
  rw [hminmax] at hseg
  refine ⟨so, sd, hso, hsd, min so sd, max so sd, rfl, rfl, by omega,
    fun hne => by omega, hseg, ?_, ?_⟩
  · intro hmem
    rw [hseg]
    unfold insertSeg
    rw [if_pos hmem]
  · intro hmem
    rw [hseg]
    unfold insertSeg
    rw [if_neg hmem]

/-- Witness for C4 on the (B, D) derivation over exDB, where the two
cities resolve to the distinct positions 100 and 9999. -/
theorem segment_invariant_witness :
    ∃ so sd,
      seqOf (variantStops exDB 0) (lowerStr (norm_city (S "B"))) = some so ∧
      seqOf (variantStops exDB 0) (lowerStr (norm_city (S "D"))) = some sd ∧
      ∃ s e, s = min so sd ∧ e = max so sd ∧ s ≤ e ∧
        (so ≠ sd → s < e) ∧
        (adDB exDB (S "B") (S "D")).segments = insertSeg exDB.segments ⟨1, 0, s, e⟩ ∧
        ((⟨1, 0, s, e⟩ : Segment) ∈ exDB.segments →
          (adDB exDB (S "B") (S "D")).segments = exDB.segments) ∧
        ((⟨1, 0, s, e⟩ : Segment) ∉ exDB.segments →
          (adDB exDB (S "B") (S "D")).segments = exDB.segments ++ [⟨1, 0, s, e⟩]) :=
  segment_invariant.1 exDB (S "B") (S "D") 1 0 [S "B", S "C", S "D"]
    (adDB exDB (S "B") (S "D")) (by decide)

/-- Counterexample to C4 as stated: deriving from B to B is accepted
and registers the segment (100, 100), whose start_seq is not strictly
below its end_seq. -/
theorem segment_invariant_cex :
    (auto_derive_segment exDB (S "B") (S "B")).isOk = true ∧
    ((⟨1, 0, 100, 100⟩ : Segment) ∈ (adDB exDB (S "B") (S "B")).segments) ∧
    ¬ (100 < 100) := by decide

/-! ## C7: directional carrier matching -/

/-- C7: search_carriers is directional.  Whenever no variant holds the
origin at a strictly smaller seq than the destination
(case-insensitively), the result is empty; and over the concrete store
with the variant B(0) C(100) D(9999) and one linked carrier, searching
(B, D) returns that carrier with the path B, C, D while the reversed
query (D, B) returns the empty result. -/
theorem search_directional :
    (∀ db o d,
      (¬ ∃ so ∈ db.stops, ∃ sd ∈ db.stops, ∃ rv ∈ db.variants,
          sd.variant_id = so.variant_id ∧ so.seq < sd.seq ∧
          lowerStr so.city = lowerStr o ∧ lowerStr sd.city = lowerStr d ∧
          rv.id = so.variant_id) →
      search_carriers db o d = []) ∧
    search_carriers c7db (S "B") (S "D") =
      [(1, S "N", some (S "P"), [S "B", S "C", S "D"])] ∧
    search_carriers c7db (S "D") (S "B") = [] := by
  refine ⟨?_, by decide, by decide⟩
  intro db o d hno
  have hseg : segRows db o d = [] := by
    rw [List.eq_nil_iff_forall_not_mem]
    intro x hx
    unfold segRows at hx
    simp only [List.mem_flatMap, List.mem_filterMap] at hx
    obtain ⟨so, hso, sd, hsd, rv, hrv, hif⟩ := hx
    by_cases hc : (sd.variant_id == so.variant_id && decide (so.seq < sd.seq) &&
        lowerStr so.city == lowerStr o && lowerStr sd.city == lowerStr d &&
        rv.id == so.variant_id) = true
    · simp only [Bool.and_eq_true, beq_iff_eq, decide_eq_true_eq] at hc
      exact hno ⟨so, hso, sd, hsd, rv, hrv, hc.1.1.1.1, hc.1.1.1.2, hc.1.1.2, hc.1.2, hc.2⟩
    · rw [if_neg hc] at hif
      exact Option.noConfusion hif
  unfold search_carriers
  rw [hseg]
  rfl

/-- Witness for C7: the reversed query over the concrete store matches
no (origin before destination) pair, hence is empty. -/
theorem search_directional_witness : search_carriers c7db (S "D") (S "B") = [] :=
  search_directional.1 c7db (S "D") (S "B") (by decide)

/-! ## C8: boundary rejection of replace_variant_stops -/

/-- C8, amended: for every variant (with its group) and every payload
whose filtered normalized stop list has at least two entries and whose
first and last entries match neither (city_a, city_b) nor
(city_b, city_a) case-insensitively, replace_variant_stops fails with
the ValidationError naming the expected boundary pair, and the
transaction leaves the store unchanged.  (A payload retaining fewer
than two entries also fails and also leaves the store unchanged, but
with the minimum-two-stops message instead, see the counterexample.) -/
theorem replace_boundary_reject :
    ∀ db vid payload v g,
      db.variants.find? (fun v => v.id == vid) = some v →
      db.groupTable.rows.find? (fun g => g.id == v.group_id) = some g →
      2 ≤ (replStops payload).length →
      ¬(lowerStr ((replStops payload).headD []) = lowerStr g.city_a ∧
        lowerStr ((replStops payload).getLastD []) = lowerStr g.city_b) →
      ¬(lowerStr ((replStops payload).headD []) = lowerStr g.city_b ∧
        lowerStr ((replStops payload).getLastD []) = lowerStr g.city_a) →
      replace_variant_stops db vid payload =
        .error (.validation (boundaryMsg g.city_a g.city_b)) ∧
      committed (replace_variant_stops db vid payload) db = db := by
  intro db vid payload v g hv hg hlen h1 h2
  have herr : replace_variant_stops db vid payload =
      .error (.validation (boundaryMsg g.city_a g.city_b)) := by
    unfold replace_variant_stops
    rw [hv]
    dsimp only
    rw [hg]
    dsimp only
    rw [if_neg (by omega)]
    rw [if_neg (fun hb => h1 (by simpa [Bool.and_eq_true, beq_iff_eq] using hb))]
    rw [if_neg (fun hb => h2 (by simpa [Bool.and_eq_true, beq_iff_eq] using hb))]
  exact ⟨herr, by rw [herr]; rfl⟩

/-- Witness for C8: replacing the stops of the (B, D) variant with the
list X, Y is rejected with the message naming B—D. -/
theorem replace_boundary_reject_witness :
    replace_variant_stops c7db 0 [S "X", S "Y"] =
      .error (.validation (boundaryMsg (S "B") (S "D"))) ∧
    committed (replace_variant_stops c7db 0 [S "X", S "Y"]) c7db = c7db :=
  replace_boundary_reject c7db 0 [S "X", S "Y"]
    { id := 0, group_id := 0, title := none, is_active := true }
    { id := 0, city_a := S "B", city_b := S "D" }
    (by decide) (by decide) (by decide) (by decide) (by decide)

/-- Counterexample to C8 as stated: the one-entry payload X matches
neither boundary of the (A, C) group, yet the failure message is the
generic minimum-two-stops one, not the message naming the expected
pair (the store is still left unchanged). -/
theorem replace_boundary_reject_cex :
    replace_variant_stops c3db 0 [S "X"] =
      .error (.validation (S "Минимум 2 точки")) ∧
    S "Минимум 2 точки" ≠ boundaryMsg (S "A") (S "C") ∧
    committed (replace_variant_stops c3db 0 [S "X"]) c3db = c3db := by decide

/-! ## C9: the auth token round trip -/

theorem charSextet_sextetChar : ∀ n, n < 64 → charSextet (sextetChar n) = some n := by decide

theorem sextetChar_ne_eq : ∀ n, n < 64 → sextetChar n ≠ '=' := by decide

theorem b64encode_ne_nil : ∀ {bs : Bytes}, bs ≠ [] → b64encode bs ≠ []
  | [], h => absurd rfl h
  | [_], _ => by simp [b64encode]
  | [_, _], _ => by simp [b64encode]
  | _ :: _ :: _ :: _, _ => by simp [b64encode]

theorem b64_roundtrip : ∀ (bs : Bytes), (∀ b ∈ bs, b < 256) →
    b64decode (b64encode bs) = some bs
  | [], _ => rfl
  | [a], h => by
      have ha : a < 256 := h a (by simp)
      have h1 := charSextet_sextetChar (a / 4) (by omega)
      have h2 := charSextet_sextetChar (a % 4 * 16) (by omega)
      simp only [b64encode, b64decode, h1, h2, if_pos rfl]
      simp
      omega
  | [a, b], h => by
      have ha : a < 256 := h a (by simp)
      have hb : b < 256 := h b (by simp)
      have h1 := charSextet_sextetChar (a / 4) (by omega)
      have h2 := charSextet_sextetChar (a % 4 * 16 + b / 16) (by omega)
      have h3 := charSextet_sextetChar (b % 16 * 4) (by omega)
      have hne3 := sextetChar_ne_eq (b % 16 * 4) (by omega)
      simp only [b64encode, b64decode, h1, h2, h3, if_neg hne3, if_pos rfl]
      simp
      omega
  | a :: b :: c :: rest, h => by
      have ha : a < 256 := h a (by simp)
      have hb : b < 256 := h b (by simp)
      have hc : c < 256 := h c (by simp)
      have h1 := charSextet_sextetChar (a / 4) (by omega)
      have h2 := charSextet_sextetChar (a % 4 * 16 + b / 16) (by omega)
      have h3 := charSextet_sextetChar (b % 16 * 4 + c / 64) (by omega)
      have h4 := charSextet_sextetChar (c % 64) (by omega)
      have hne3 := sextetChar_ne_eq (b % 16 * 4 + c / 64) (by omega)
      have hne4 := sextetChar_ne_eq (c % 64) (by omega)
      have hrest := b64_roundtrip rest (fun x hx => h x (by simp [hx]))
      simp only [b64encode, b64decode, h1, h2, h3, h4, if_neg hne3, if_neg hne4]
      rw [hrest]
      simp
      omega

theorem bsplit_ne_nil : ∀ (l : Bytes), bsplit l ≠ [] := by
  intro l
  induction l with
  | nil => simp [bsplit]
  | cons x xs ih =>
      unfold bsplit
      by_cases hx : (x == 46) = true
      · simp [hx]
      · simp only [hx, Bool.false_eq_true, if_false]
        cases hs : bsplit xs with
        | nil => exact absurd hs ih
        | cons h t => simp

theorem bsplit_no46 : ∀ (l : Bytes), (∀ b ∈ l, b ≠ 46) → bsplit l = [l] := by
  intro l
  induction l with
  | nil => intro _; rfl
  | cons x xs ih =>
      intro h
      have hx : (x == 46) = false :=
        beq_eq_false_iff_ne.mpr (h x (List.mem_cons_self x xs))
      unfold bsplit
      rw [hx]
      simp only [Bool.false_eq_true, if_false]
      rw [ih (fun b hb => h b (List.mem_cons_of_mem x hb))]

theorem bsplit_cons_ne (x : Nat) (xs : Bytes) (hx : (x == 46) = false) :
    bsplit (x :: xs) =
      match bsplit xs with
      | h :: t => (x :: h) :: t
      | [] => [[x]] := by
  rw [show bsplit (x :: xs) =
      if (x == 46) = true then [] :: bsplit xs
      else
        match bsplit xs with
        | h :: t => (x :: h) :: t
        | [] => [[x]] from rfl]
  rw [hx]
  simp

theorem bsplit_append46 : ∀ (l1 l2 : Bytes), (∀ b ∈ l1, b ≠ 46) →
    bsplit (l1 ++ 46 :: l2) = l1 :: bsplit l2 := by
  intro l1
  induction l1 with
  | nil => intro l2 _; simp [bsplit]
  | cons x xs ih =>
      intro l2 h
      have hx : (x == 46) = false :=
        beq_eq_false_iff_ne.mpr (h x (List.mem_cons_self x xs))
      show bsplit (x :: (xs ++ 46 :: l2)) = (x :: xs) :: bsplit l2
      rw [bsplit_cons_ne x _ hx, ih l2 (fun b hb => h b (List.mem_cons_of_mem x hb))]

theorem decBytesGo_digit : ∀ (fuel m : Nat), ∀ b ∈ decBytesGo fuel m, 48 ≤ b ∧ b ≤ 57 := by
  intro fuel
  induction fuel with
  | zero => intro m b hb; simp [decBytesGo] at hb
  | succ f ih =>
      intro m b hb
      unfold decBytesGo at hb
      by_cases hm : m < 10
      · rw [if_pos hm] at hb
        simp only [List.mem_singleton] at hb
        omega
      · rw [if_neg hm] at hb
        rcases List.mem_append.mp hb with hb | hb
        · exact ih (m / 10) b hb
        · simp only [List.mem_singleton] at hb
          have : m % 10 < 10 := Nat.mod_lt m (by omega)
          omega

theorem decBytes_digit {n : Nat} : ∀ b ∈ decBytes n, 48 ≤ b ∧ b ≤ 57 :=
  decBytesGo_digit (n + 1) n

theorem be32_lt (w : Nat) : ∀ b ∈ be32 w, b < 256 := by
  intro b hb
  simp only [be32, List.mem_cons, List.not_mem_nil, or_false] at hb
  rcases hb with rfl | rfl | rfl | rfl <;> exact Nat.mod_lt _ (by omega)

theorem sha256_lt (m : Bytes) : ∀ b ∈ sha256 m, b < 256 := by
  intro b hb
  unfold sha256 at hb
  rw [List.mem_flatMap] at hb
  obtain ⟨w, _, hw⟩ := hb
  exact be32_lt w b hw

/-- C9, amended: for every secret, every username whose bytes avoid the
0x2E separator, and every issuance timestamp whose HMAC-SHA256 digest
also avoids 0x2E, the token issued by issue_token is accepted by
require_token, which returns exactly that username.  The timestamp is
universally quantified and require_token consumes no clock, so
acceptance never depends on the age of the carried timestamp.  The
restriction on the username is forced: a username containing a dot
shifts the dot-separated fields and the recomputed mac cannot match,
see the counterexample; a digest byte 0x2E likewise splits the mac
field. -/
theorem token_roundtrip (secret u : Bytes) (ts : Nat)
    (hu : ∀ b ∈ u, b < 256) (hdot : ∀ b ∈ u, b ≠ 46)
    (hmac46 : ∀ b ∈ hmac_sha256 secret (u ++ 58 :: decBytes ts), b ≠ 46) :
    require_token secret (issue_token secret u ts) = .ok u := by
  have hmac_lt : ∀ b ∈ hmac_sha256 secret (u ++ 58 :: decBytes ts), b < 256 :=
    sha256_lt _
  have hraw : ∀ b ∈ u ++ 46 :: (decBytes ts ++ 46 ::
      hmac_sha256 secret (u ++ 58 :: decBytes ts)), b < 256 := by
    intro b hb
    rcases List.mem_append.mp hb with hb | hb
    · exact hu b hb
    · rcases List.mem_cons.mp hb with rfl | hb
      · omega
      · rcases List.mem_append.mp hb with hb | hb
        · have := decBytes_digit b hb; omega
        · rcases List.mem_cons.mp hb with rfl | hb
          · omega
          · exact hmac_lt b hb
  have hne : (issue_token secret u ts).isEmpty = false := by
    rw [List.isEmpty_eq_false]
    exact b64encode_ne_nil (by simp [issue_token])
  unfold require_token
  rw [hne]
  simp only [Bool.false_eq_true, if_false]
  unfold issue_token
  rw [show u ++ [46] ++ decBytes ts ++ [46] ++
      hmac_sha256 secret (u ++ [58] ++ decBytes ts) =
      u ++ 46 :: (decBytes ts ++ 46 :: hmac_sha256 secret (u ++ 58 :: decBytes ts)) by simp]
  rw [b64_roundtrip _ hraw]
  have hsplit : bsplit (u ++ 46 :: (decBytes ts ++ 46 ::
      hmac_sha256 secret (u ++ 58 :: decBytes ts))) =
      [u, decBytes ts, hmac_sha256 secret (u ++ 58 :: decBytes ts)] := by
    rw [bsplit_append46 u _ hdot]
    rw [bsplit_append46 (decBytes ts) _ (fun b hb => by have := decBytes_digit b hb; omega)]
    rw [bsplit_no46 _ hmac46]
  dsimp only
  rw [hsplit]
  simp

/-- Witness for C9: the default admin user with secret change_me at
timestamp 0 (an arbitrarily old token) is accepted. -/
theorem token_roundtrip_witness :
    require_token (B "change_me") (issue_token (B "change_me") (B "admin") 0) =
      .ok (B "admin") :=
  token_roundtrip (B "change_me") (B "admin") 0 (by decide) (by decide) (by decide)

/-- Counterexample to C9 as stated: a username containing a dot breaks
the round trip; the issued token is rejected as invalid. -/
theorem token_roundtrip_cex :
    require_token (B "change_me") (issue_token (B "change_me") (B "a.b") 0) =
      .error (.auth (S "Invalid token")) := by decide

end DispatcherTim
